import Mathlib

/-!
Shallow embedding of the core detection pipeline of the ZDex repository
(`zdex/camera.py`, `zdex/pipeline.py`, `zdex/detector.py` and the
detection-stabilizer portion of `zdex/app.py`), together with proofs of the
behavioural properties stated in the specification.

Conventions:
* Python floats (timestamps, confidence scores) are modelled as rationals;
  all comparisons in the source are order comparisons, so no floating-point
  rounding behaviour is relevant to the properties proved here.
* Python strings used as keys (species names, uuids) are modelled as natural
  number codes.
* Code that can raise is modelled with `Except Unit`; `Except.error ()` stands
  for "an exception was raised".
-/

namespace ZDex

/-! ### Bounded queues (`queue.Queue` with `put_nowait`/`get_nowait`)

A `queue.Queue(maxsize)` is modelled as a `List`, oldest element first.
`put_nowait` succeeds unless the queue is bounded (`maxsize > 0`) and already
holds `maxsize` items. -/

/-- Whether `put_nowait` succeeds on a queue of length `len` with the given
`maxsize` (`maxsize = 0` means unbounded in `queue.Queue`). -/
def putOk (maxsize len : Nat) : Bool :=
  maxsize == 0 || len < maxsize

/-- Embedding of `CameraController._offer` / `DetectionPipeline._offer`:
try `put_nowait`; on `queue.Full`, `get_nowait` one (oldest) item — a raised
`queue.Empty` is swallowed, which on a list is `List.tail` — then retry
`put_nowait`, silently dropping the new item if the queue is still full. -/
def offer (maxsize : Nat) (buf : List α) (x : α) : List α :=
  if putOk maxsize buf.length then buf ++ [x]
  else
    let buf2 := buf.tail
    if putOk maxsize buf2.length then buf2 ++ [x] else buf2

/-- Folding `offer` over a whole sequence of offered items. -/
def offerAll (maxsize : Nat) (buf : List α) (xs : List α) : List α :=
  xs.foldl (offer maxsize) buf

/-! ### Data model (`zdex/species.py`, `zdex/detector.py`)

String-valued fields (uuid, taxonomy names) are modelled as natural number
codes; scores and timestamps as rationals. -/

/-- Embedding of `species.SpeciesLabel` (the fields the core reads). -/
structure SpeciesLabel where
  index : Nat
  uuid : Nat
  species : Nat
  commonName : Nat
deriving DecidableEq, Repr

/-- Embedding of `detector.ClassificationHypothesis`. -/
structure ClassificationHypothesis where
  label : SpeciesLabel
  score : ℚ
deriving DecidableEq, Repr

/-- Embedding of `detector.ClassificationResult`: non-empty by construction
in `_classify`; `primary` is `hypotheses[0]`. -/
structure ClassificationResult where
  hypotheses : List ClassificationHypothesis
deriving DecidableEq, Repr

/-- Placeholder hypothesis standing for the `IndexError` a `primary` access
would raise on an (unconstructible) empty `ClassificationResult`. -/
def dummyHypothesis : ClassificationHypothesis :=
  ⟨⟨0, 0, 0, 0⟩, 0⟩

/-- Embedding of `ClassificationResult.primary`. -/
def ClassificationResult.primary (c : ClassificationResult) :
    ClassificationHypothesis :=
  c.hypotheses.headD dummyHypothesis

/-- Embedding of `detector.DetectionResult`. -/
structure DetectionResult where
  bbox : Int × Int × Int × Int
  detectionConfidence : ℚ
  classification : ClassificationResult
  frameTimestamp : ℚ
deriving DecidableEq, Repr

/-- Embedding of `DetectionResult.primary_label`. -/
def DetectionResult.primaryLabel (d : DetectionResult) :
    ClassificationHypothesis :=
  d.classification.primary

/-- Embedding of `pipeline.DetectionBatch`. -/
structure DetectionBatch where
  timestamp : ℚ
  frameShape : Nat × Nat × Nat
  detections : List DetectionResult
deriving DecidableEq, Repr

/-! ### Inference engine (`detector.DetectionEngine.infer`)

The detector and classifier neural networks are opaque: the detector call is
modelled by its outcome (`Except.error ()` when `predict` raises; otherwise
the list of raw boxes, with the empty list also covering the
`not results` / `boxes is None` early returns), and the classifier by a
function from the cropped region (identified by its clamped bbox) to either a
result or a raised exception. -/

/-- Embedding of one raw YOLO detection (a row of `boxes.xyxy` / `boxes.conf`
/ `boxes.cls`, coordinates already truncated by `map(int, coords)`). -/
structure RawBox where
  x1 : Int
  y1 : Int
  x2 : Int
  y2 : Int
  conf : ℚ
  cls : Nat
deriving DecidableEq, Repr

/-- Embedding of `config.DETECTION_CONFIDENCE_THRESHOLD = 0.25`. -/
def DETECTION_CONFIDENCE_THRESHOLD : ℚ := Rat.divInt 25 100

/-- Embedding of `config.ANIMAL_CLASS_IDS` (COCO animal classes). -/
def ANIMAL_CLASS_IDS : List Nat := [14, 15, 16, 17, 18, 19, 20, 21, 22, 23]

/-- The per-raw-detection filtering loop of `DetectionEngine.infer`:
allow-list check, confidence check, clamp to frame bounds, degenerate-box
check, then classification of the crop. An exception from the classifier
(`Except.error`) propagates: in the source the `self._classify(crop)` call
is not inside any `try` block. -/
def processRaw (W H : Nat)
    (classify : Int × Int × Int × Int → Except Unit ClassificationResult)
    (ts : ℚ) : List RawBox → Except Unit (List DetectionResult)
  | [] => .ok []
  | r :: rest =>
    if !ANIMAL_CLASS_IDS.isEmpty && !(ANIMAL_CLASS_IDS.contains r.cls) then
      processRaw W H classify ts rest
    else if r.conf < DETECTION_CONFIDENCE_THRESHOLD then
      processRaw W H classify ts rest
    else
      let x1 := max 0 r.x1
      let y1 := max 0 r.y1
      let x2 := min ((W : Int) - 1) r.x2
      let y2 := min ((H : Int) - 1) r.y2
      if x2 ≤ x1 ∨ y2 ≤ y1 then
        processRaw W H classify ts rest
      else
        match classify (x1, y1, x2, y2) with
        | .error e => .error e
        | .ok c =>
          match processRaw W H classify ts rest with
          | .error e => .error e
          | .ok ds => .ok (⟨(x1, y1, x2, y2), r.conf, c, ts⟩ :: ds)

/-- Stable insertion of a detection into a list sorted by primary
classification score descending (the element is placed before the first
entry with a score less than or equal to its own, matching the stability of
Python's `list.sort(key=..., reverse=True)` for elements originally to its
left). -/
def insertByScoreDesc (d : DetectionResult) :
    List DetectionResult → List DetectionResult
  | [] => [d]
  | e :: rest =>
    if e.primaryLabel.score ≤ d.primaryLabel.score then d :: e :: rest
    else e :: insertByScoreDesc d rest

/-- Embedding of `detections.sort(key=lambda d: d.primary_label.score,
reverse=True)`. -/
def sortByScoreDesc (l : List DetectionResult) : List DetectionResult :=
  l.foldr insertByScoreDesc []

/-- Embedding of `DetectionEngine.infer`. The `try`/`except` in the source
wraps only the `self._detector.predict(...)` call; everything after it
(including `_classify`) is outside the handler. -/
def infer (W H : Nat) (ts : ℚ)
    (detOut : Except Unit (List RawBox))
    (classify : Int × Int × Int × Int → Except Unit ClassificationResult) :
    Except Unit (List DetectionResult) :=
  match detOut with
  | .error _ => .ok []
  | .ok raws =>
    match processRaw W H classify ts raws with
    | .error e => .error e
    | .ok ds => .ok (sortByScoreDesc ds)

/-! ### Detection pipeline worker (`pipeline.DetectionPipeline._loop`)

One loop iteration that dequeued a frame packet is modelled by the packet
data together with the wall-clock time `now` at which the worker handles it
and the outcome of the inference call. -/

/-- Embedding of `config.DETECTION_INTERVAL_MS = 300`, in seconds. -/
def detectionIntervalSec : ℚ := Rat.divInt 300 1000

instance exceptDecEq {ε α : Type} [DecidableEq ε] [DecidableEq α] :
    DecidableEq (Except ε α) := fun x y =>
  match x, y with
  | .ok a, .ok b =>
    if h : a = b then .isTrue (by rw [h])
    else .isFalse (by intro hc; cases hc; exact h rfl)
  | .error a, .error b =>
    if h : a = b then .isTrue (by rw [h])
    else .isFalse (by intro hc; cases hc; exact h rfl)
  | .ok _, .error _ => .isFalse (by intro hc; cases hc)
  | .error _, .ok _ => .isFalse (by intro hc; cases hc)

/-- A frame packet as observed by the pipeline worker in one loop iteration:
its source timestamp and shape, the wall clock `now = time.time()` when the
worker picked it up, and the outcome of `engine.infer` on it
(`Except.error ()` when inference raised). -/
structure PacketObs where
  ts : ℚ
  shape : Nat × Nat × Nat
  now : ℚ
  outcome : Except Unit (List DetectionResult)
deriving DecidableEq, Repr

/-- The batch published for a packet that passed the rate limit: the
inference result on success, an empty batch with the same timestamp and
frame shape when inference raised (the `except` arm of `_loop`). -/
def publishedBatch (p : PacketObs) : DetectionBatch :=
  match p.outcome with
  | .ok dets => ⟨p.ts, p.shape, dets⟩
  | .error _ => ⟨p.ts, p.shape, []⟩

/-- One iteration of `DetectionPipeline._loop` after a packet was dequeued:
skip (publishing nothing, keeping `_last_inference_ts`) when the rate limit
rejects the packet, otherwise update `_last_inference_ts` to `now` and
publish a batch. -/
def loopStep (last : ℚ) (p : PacketObs) : ℚ × Option DetectionBatch :=
  if p.now - last < detectionIntervalSec then (last, none)
  else (p.now, some (publishedBatch p))

/-- The worker loop over a list of dequeued packets, returning the final
`_last_inference_ts` and the published batches, each paired with the wall
clock at which its inference ran. -/
def runLoop (last : ℚ) : List PacketObs → ℚ × List (ℚ × DetectionBatch)
  | [] => (last, [])
  | p :: ps =>
    match loopStep last p with
    | (l2, none) => runLoop l2 ps
    | (l2, some b) =>
      let rest := runLoop l2 ps
      (rest.1, (p.now, b) :: rest.2)

/-! ### Camera controller (`camera.CameraController`) -/

/-- Observable state of `CameraController`: the `_running` event flag and
whether a `cv2.VideoCapture` handle is held in `_capture`. -/
structure CameraState where
  running : Bool
  captureHeld : Bool
deriving DecidableEq, Repr

/-- What `CameraController.start` returns to its caller. -/
inductive StartReturn where
  | alreadyRunning
  | spawned
deriving DecidableEq, Repr

/-- Embedding of `CameraController.start`: when already running, warn and
return; otherwise set the running flag and spawn the capture thread. No
code path raises, so the result is always `Except.ok`. -/
def cameraStart (s : CameraState) : Except Unit (CameraState × StartReturn) :=
  if s.running then .ok (s, .alreadyRunning)
  else .ok ({ s with running := true }, .spawned)

/-- Embedding of the device-opening prologue of
`CameraController._capture_loop`: the `cv2.VideoCapture` handle is stored in
`self._capture` under the lock, then `isOpened()` is checked; on failure the
running flag is cleared and the thread returns. This runs on the spawned
background thread, not in `start()`. -/
def captureLoopOpen (deviceOk : Bool) (s : CameraState) : CameraState :=
  let s2 := { s with captureHeld := true }
  if deviceOk then s2 else { s2 with running := false }

/-- The synchronous `start()` call composed with the open step of the thread
it spawns, as one operation whose `Except` layer records whether any
exception reached the caller of `start()`. -/
def startAndOpen (deviceOk : Bool) (s : CameraState) :
    Except Unit CameraState :=
  match cameraStart s with
  | .error e => .error e
  | .ok (s2, .alreadyRunning) => .ok s2
  | .ok (s2, .spawned) => .ok (captureLoopOpen deviceOk s2)

/-! ### Detection stabilizer (`app.ZDexApp._poll_detections` and friends)

The detection-state-machine portion of `app.py`: smoothing window, dwell /
auto-capture tracking, and the high-confidence freeze latch. Wikipedia
entries and capture histories are opaque payloads, modelled as natural
number codes; `STORE.get_history` is passed in as a read-only function. -/

/-- Modelled from the spec: `config.AUTO_CAPTURE_THRESHOLD_SECONDS` is read
by `app._poll_detections` but is missing from `config.py` as shipped; the
spec fixes the auto-capture dwell threshold at 2 seconds. -/
def AUTO_CAPTURE_THRESHOLD_SECONDS : ℚ := 2

/-- Modelled from the spec: `config.FREEZE_CONFIDENCE_THRESHOLD` is read by
`app._poll_detections` but is missing from `config.py` as shipped; the spec
fixes the freeze confidence threshold at 0.90. -/
def FREEZE_CONFIDENCE_THRESHOLD : ℚ := Rat.divInt 90 100

/-- Embedding of `ui.panels.SpeciesDisplayContext`. -/
structure SpeciesDisplayContext where
  detection : Option DetectionResult
  wikipedia : Option Nat
  history : Option Nat
  locked : Bool
deriving DecidableEq, Repr

/-- The stabilizer-relevant mutable state of `ZDexApp`. -/
structure AppState where
  buffer : List (Option DetectionResult)
  current : Option DetectionResult
  frozen : Bool
  frozenContext : Option SpeciesDisplayContext
  lastSpecies : Option Nat
  startTime : Option ℚ
  triggered : Bool
  wiki : Option Nat
  labelUuid : Option Nat
deriving DecidableEq, Repr

/-- The initial stabilizer state set up in `ZDexApp.__init__`. -/
def initialAppState : AppState :=
  ⟨[], none, false, none, none, none, false, none, none⟩

/-- Embedding of `collections.deque(maxlen=cap).append`: append on the
right, evicting from the left when over capacity. -/
def dequeAppend (cap : Nat) (l : List α) (x : α) : List α :=
  let l2 := l ++ [x]
  l2.drop (l2.length - cap)

/-- The largest multiplicity among the elements of `l`. -/
def countMax (l : List Nat) : Nat :=
  l.foldr (fun k m => max (l.count k) m) 0

/-- Embedding of `collections.Counter(l).most_common(1)[0][0]`: the key with
the largest count, ties broken by `Counter` insertion order, i.e. by first
occurrence in `l`. Scanning `l` itself for the first element whose count is
maximal picks exactly that key. -/
def mostCommon (l : List Nat) : Option Nat :=
  l.find? (fun k => l.count k == countMax l)

/-- The species key of a detection as used by the smoothing and dwell logic
(`d.primary_label.label.species`). -/
def DetectionResult.speciesKey (d : DetectionResult) : Nat :=
  d.primaryLabel.label.species

/-- Embedding of the smoothing block of `_poll_detections`, run once per
drained batch: filter the `None` entries out of the window, and if any
remain, take the most frequent species and, scanning most-recent-first, the
latest detection of that species; with an all-`None` window the current
detection becomes `None`. The two fallback arms keep the previous value
exactly as the source's control flow would (they are unreachable, which is
proved below). -/
def smoothedUpdate (old : Option DetectionResult)
    (buffer : List (Option DetectionResult)) : Option DetectionResult :=
  let valid := buffer.filterMap id
  if valid.isEmpty then none
  else
    match mostCommon (valid.map DetectionResult.speciesKey) with
    | none => old
    | some sp =>
      match valid.reverse.find? (fun d => d.speciesKey == sp) with
      | some d => some d
      | none => old

/-- One iteration of the drain loop of `_poll_detections`: push the batch's
top detection (or `None`) into the five-slot window and recompute the
smoothed current detection. -/
def drainOne (s : AppState) (top : Option DetectionResult) : AppState :=
  let buf := dequeAppend 5 s.buffer top
  { s with buffer := buf, current := smoothedUpdate s.current buf }

/-- Draining every batch available on `results_queue` this poll; each list
entry is `batch.detections[0]` when the batch is non-empty, `None`
otherwise. -/
def drainBatches (s : AppState) (batches : List (Option DetectionResult)) :
    AppState :=
  batches.foldl drainOne s

/-- Embedding of the auto-capture block of `_poll_detections`. Returns the
updated state and whether the capture action was triggered
(`root.after(100, self._on_capture)` scheduled) this poll. When the UI is
frozen — or there is no current detection — the tracking state is reset. -/
def dwellStep (now : ℚ) (s : AppState) : AppState × Bool :=
  match s.current, s.frozen with
  | some d, false =>
    if s.lastSpecies = some d.speciesKey then
      match s.startTime with
      | none => ({ s with startTime := some now }, false)
      | some t0 =>
        if AUTO_CAPTURE_THRESHOLD_SECONDS ≤ now - t0 ∧ s.triggered = false then
          ({ s with triggered := true }, true)
        else (s, false)
    else
      ({ s with lastSpecies := some d.speciesKey, startTime := some now,
                triggered := false }, false)
  | _, _ =>
    if s.lastSpecies ≠ none then
      ({ s with lastSpecies := none, startTime := none, triggered := false },
       false)
    else (s, false)

/-- Embedding of `ZDexApp._handle_detection_update`: refresh the history for
the current detection, clear the cached Wikipedia entry when the species
uuid changed, and push an unlocked context to the species panel. -/
def handleDetectionUpdate (histFn : SpeciesLabel → Option Nat) (s : AppState) :
    AppState × SpeciesDisplayContext :=
  match s.current with
  | some d =>
    let label := d.primaryLabel.label
    let hist := histFn label
    let s2 :=
      if s.labelUuid ≠ some label.uuid then
        { s with labelUuid := some label.uuid, wiki := none }
      else s
    (s2, ⟨some d, s2.wiki, hist, false⟩)
  | none => (s, ⟨none, s.wiki, none, false⟩)

/-- The tail of `_poll_detections` after the drain loop: the auto-capture
block, then — only when at least one batch was drained (`updated`) — the
freeze trigger and the species-panel update. The second component reports
whether auto-capture fired; the third is the argument passed to
`species_panel.update_context` this poll (`Option.none` when the panel was
not updated). -/
def pollAfterDrain (histFn : SpeciesLabel → Option Nat) (updated : Bool)
    (now : ℚ) (s : AppState) :
    AppState × Bool × Option (Option SpeciesDisplayContext) :=
  let step := dwellStep now s
  let s2 := step.1
  let fired := step.2
  if updated then
    let s3 :=
      match s2.current, s2.frozen with
      | some d, false =>
        if FREEZE_CONFIDENCE_THRESHOLD ≤ d.primaryLabel.score then
          { s2 with frozen := true,
                    frozenContext :=
                      some ⟨some d, s2.wiki, histFn d.primaryLabel.label,
                            true⟩ }
        else s2
      | _, _ => s2
    if s3.frozen then (s3, fired, some s3.frozenContext)
    else
      let upd := handleDetectionUpdate histFn s3
      (upd.1, fired, some (some upd.2))
  else (s2, fired, none)

/-- One full `_poll_detections` tick: drain the available batches, then run
the auto-capture and freeze logic. -/
def pollStep (histFn : SpeciesLabel → Option Nat)
    (batches : List (Option DetectionResult)) (now : ℚ) (s : AppState) :
    AppState × Bool × Option (Option SpeciesDisplayContext) :=
  pollAfterDrain histFn (!batches.isEmpty) now (drainBatches s batches)

/-- Embedding of `ZDexApp._capture_another`: clear the freeze latch and the
locked context, then immediately restore normal updates via
`_handle_detection_update`. -/
def captureAnother (histFn : SpeciesLabel → Option Nat) (s : AppState) :
    AppState × SpeciesDisplayContext :=
  handleDetectionUpdate histFn { s with frozen := false, frozenContext := none }

/-- Driving the stabilizer over a sequence of polls, counting how many times
auto-capture fired. -/
def runPoll (histFn : SpeciesLabel → Option Nat) (s : AppState) :
    List (List (Option DetectionResult) × ℚ) → AppState × Nat
  | [] => (s, 0)
  | (bs, now) :: rest =>
    let step := pollStep histFn bs now s
    let tail := runPoll histFn step.1 rest
    (tail.1, (if step.2.1 then 1 else 0) + tail.2)

/-- A run in which, at every poll, the freshly drained window smooths to a
detection of species `k` (the hypothesis of the no-refire theorem). -/
def SameSpeciesRun (histFn : SpeciesLabel → Option Nat) (k : Nat) :
    AppState → List (List (Option DetectionResult) × ℚ) → Prop
  | _, [] => True
  | s, (bs, now) :: rest =>
    (∃ d, (drainBatches s bs).current = some d ∧ d.speciesKey = k) ∧
      SameSpeciesRun histFn k (pollStep histFn bs now s).1 rest

/-- Position of the first occurrence of `k` in `l` (`l.length` when `k` does
not occur); used to state the `Counter` tie-break rule. -/
def firstOccur (k : Nat) : List Nat → Nat
  | [] => 0
  | x :: xs => if x = k then 0 else firstOccur k xs + 1

/-- A sample detection used in concrete scenarios: species code `sp`, a
`tag` (encoded as the frame timestamp) to tell instances apart, and a top-1
classification score. -/
def mkDet (sp tag : Nat) (score : ℚ) : DetectionResult :=
  ⟨(0, 0, 1, 1), 1, ⟨[⟨⟨0, sp, sp, sp⟩, score⟩]⟩, tag⟩

/-- The spec's first smoothing scenario: window contents `[A, A, B, A, None]`
oldest to newest (species `A = 0`, `B = 1`, tags record positions). -/
def windowAABA : List (Option DetectionResult) :=
  [some (mkDet 0 10 1), some (mkDet 0 11 1), some (mkDet 1 12 1),
   some (mkDet 0 13 1), none]

/-- The spec's second smoothing scenario: window contents `[A, B, B, A, B]`
oldest to newest. -/
def windowABBAB : List (Option DetectionResult) :=
  [some (mkDet 0 10 1), some (mkDet 1 11 1), some (mkDet 1 12 1),
   some (mkDet 0 13 1), some (mkDet 1 14 1)]

/-- A tied window `[A, B, A, B]`: both species occur twice, so the
`Counter` tie-break picks the species occurring first (`A`). -/
def windowABAB : List (Option DetectionResult) :=
  [some (mkDet 0 10 1), some (mkDet 1 11 1), some (mkDet 0 12 1),
   some (mkDet 1 13 1)]

/-- A sample classification result for concrete inference runs. -/
def sampleClassification : ClassificationResult :=
  ⟨[⟨⟨0, 0, 0, 0⟩, 1⟩]⟩

/-- Two sample raw detections inside a 10×10 frame, classes dog and cat. -/
def sampleRawA : RawBox := ⟨0, 0, 5, 5, 1, 14⟩

def sampleRawB : RawBox := ⟨1, 1, 6, 6, 1, 15⟩

/-- The detection list `infer` produces from `sampleRawA`/`sampleRawB` under
a constant classifier. -/
def sampleDetList : List DetectionResult :=
  [⟨(0, 0, 5, 5), 1, sampleClassification, 0⟩,
   ⟨(1, 1, 6, 6), 1, sampleClassification, 0⟩]

theorem offer_eq_drop {α : Type} (cap : Nat) (hcap : 0 < cap) (buf : List α)
    (x : α) (hlen : buf.length ≤ cap) :
    offer cap buf x = (buf ++ [x]).drop ((buf.length + 1) - cap) := by
  unfold offer putOk
  rcases lt_or_eq_of_le hlen with hlt | heq
  · have hput : (cap == 0 || decide (buf.length < cap)) = true := by
      simp [hlt]
    rw [if_pos hput]
    have h0 : buf.length + 1 - cap = 0 := by omega
    simp [h0]
  · have hput : (cap == 0 || decide (buf.length < cap)) = false := by
      simp only [Bool.or_eq_false_iff, beq_eq_false_iff_ne, decide_eq_false_iff_not]
      constructor
      · omega
      · omega
    rw [if_neg (by simp [hput])]
    have h2 : buf.length - 1 < cap := by omega
    have hput2 : (cap == 0 || decide (buf.tail.length < cap)) = true := by
      simp [List.length_tail, h2]
    rw [if_pos (by exact hput2)]
    have hdrop : buf.length + 1 - cap = 1 := by omega
    rw [hdrop]
    rcases buf with _ | ⟨b, bs⟩
    · simp at heq; omega
    · simp

theorem offerAll_eq_drop {α : Type} (cap : Nat) (hcap : 0 < cap)
    (buf : List α) (xs : List α) (hlen : buf.length ≤ cap) :
    offerAll cap buf xs = (buf ++ xs).drop ((buf.length + xs.length) - cap) := by
  induction xs generalizing buf with
  | nil =>
    simp only [offerAll, List.foldl_nil, List.append_nil, List.length_nil,
      Nat.add_zero]
    rw [Nat.sub_eq_zero_of_le hlen, List.drop_zero]
  | cons x xs ih =>
    have hstep : offer cap buf x = (buf ++ [x]).drop ((buf.length + 1) - cap) :=
      offer_eq_drop cap hcap buf x hlen
    have hlen2 : (offer cap buf x).length ≤ cap := by
      rw [hstep]
      simp only [List.length_drop, List.length_append, List.length_singleton]
      omega
    have hfold : offerAll cap buf (x :: xs) = offerAll cap (offer cap buf x) xs := by
      simp [offerAll]
    rw [hfold, ih (offer cap buf x) hlen2, hstep]
    have hk : buf.length + 1 - cap ≤ (buf ++ [x]).length := by
      simp only [List.length_append, List.length_cons, List.length_nil]
      omega
    rw [(List.drop_append_of_le_length hk).symm, List.drop_drop]
    have hassoc : (buf ++ [x]) ++ xs = buf ++ x :: xs := by
      simp
    rw [hassoc]
    congr 1
    simp only [List.length_drop, List.length_append, List.length_cons,
      List.length_nil]
    omega

/-! ### Claim C6: bounded-buffer invariant -/

/-- C6: for every sequence of offers to a buffer of capacity `C > 0`, the
offer operation is a total function (never blocks, never raises), the buffer
never holds more than `C` items, and after the sequence the buffer holds
exactly the most-recent `C` items of the offered sequence (its suffix); in
the single-consumer embedding the re-insert after evicting the oldest item
always succeeds, so no offered item is dropped beyond the eviction itself. -/
theorem c6_bounded_buffer {α : Type} (cap : Nat) (hcap : 0 < cap)
    (xs : List α) :
    (offerAll cap ([] : List α) xs).length ≤ cap ∧
    offerAll cap ([] : List α) xs = xs.drop (xs.length - cap) := by
  have h := offerAll_eq_drop cap hcap ([] : List α) xs (by simp)
  simp only [List.length_nil, Nat.zero_add, List.nil_append] at h
  refine ⟨?_, h⟩
  rw [h]
  simp only [List.length_drop]
  omega

theorem c6_bounded_buffer_witness :
    (offerAll 2 ([] : List Nat) [10, 20, 30]).length ≤ 2 ∧
    offerAll 2 ([] : List Nat) [10, 20, 30] =
      [10, 20, 30].drop ([10, 20, 30].length - 2) :=
  c6_bounded_buffer 2 (by decide) [10, 20, 30]

/-! ### Pipeline worker lemmas and claims C3, C8 -/

theorem runLoop_cons_skip (last : ℚ) (p : PacketObs) (ps : List PacketObs)
    (h : p.now - last < detectionIntervalSec) :
    runLoop last (p :: ps) = runLoop last ps := by
  simp [runLoop, loopStep, h]

theorem runLoop_cons_pub (last : ℚ) (p : PacketObs) (ps : List PacketObs)
    (h : ¬(p.now - last < detectionIntervalSec)) :
    runLoop last (p :: ps) =
      ((runLoop p.now ps).1, (p.now, publishedBatch p) :: (runLoop p.now ps).2) := by
  simp [runLoop, loopStep, h]

theorem runLoop_rate (ps : List PacketObs) : ∀ last : ℚ,
    List.Chain' (fun a b => detectionIntervalSec ≤ b.1 - a.1)
      (runLoop last ps).2 ∧
    (∀ e, (runLoop last ps).2.head? = some e →
      detectionIntervalSec ≤ e.1 - last) := by
  induction ps with
  | nil => intro last; simp [runLoop]
  | cons p ps ih =>
    intro last
    by_cases h : p.now - last < detectionIntervalSec
    · rw [runLoop_cons_skip last p ps h]
      exact ih last
    · rw [runLoop_cons_pub last p ps h]
      have hge : detectionIntervalSec ≤ p.now - last := by
        exact le_of_not_lt h
      constructor
      · rw [List.chain'_cons']
        refine ⟨?_, (ih p.now).1⟩
        intro y hy
        have := (ih p.now).2 y
        exact this (by simpa using hy)
      · intro e he
        simp only [List.head?_cons, Option.some_inj] at he
        rw [← he]
        exact hge

/-- C3 (amended): for every pair of consecutively published batches, the
wall-clock times at which their inferences ran differ by at least the
configured minimum inter-inference interval. (The batches' source
timestamps — the `timestamp` field copied from the frame packet — need not:
the rate limiter in `_loop` compares `time.time()` against
`_last_inference_ts`, not frame timestamps; see the counterexample.) -/
theorem c3_rate_limit_on_inference_clock (last : ℚ) (ps : List PacketObs) :
    List.Chain' (fun a b => detectionIntervalSec ≤ b.1 - a.1)
      (runLoop last ps).2 :=
  (runLoop_rate ps last).1

set_option maxHeartbeats 2000000 in
/-- C3 counterexample to the claim as stated: two frames captured 0.1 s
apart (source timestamps 100 and 100.1) sit in the analysis queue; the
worker dequeues them at wall times 100 and 100.4. Both pass the 300 ms rate
limit, so both batches are published, yet their source timestamps differ by
only 0.1 s < 0.3 s. -/
theorem c3_counterexample :
    ((runLoop 0 [⟨0, (480, 640, 3), 100, .ok []⟩,
                 ⟨Rat.divInt 1 10, (480, 640, 3), Rat.divInt 1004 10,
                  .ok []⟩]).2.map
        (fun e => e.2.timestamp) = [0, Rat.divInt 1 10]) ∧
      ¬ detectionIntervalSec ≤ Rat.divInt 1 10 - 0 := by
  have h1 : ¬ (((⟨0, (480, 640, 3), 100, .ok []⟩ : PacketObs).now) - 0 <
      detectionIntervalSec) := by
    show ¬ ((100 : ℚ) - 0 < detectionIntervalSec)
    norm_num [detectionIntervalSec, Rat.divInt_eq_div]
  have h2 : ¬ (((⟨Rat.divInt 1 10, (480, 640, 3), Rat.divInt 1004 10,
      .ok []⟩ : PacketObs).now) -
      (⟨0, (480, 640, 3), 100, .ok []⟩ : PacketObs).now <
      detectionIntervalSec) := by
    show ¬ ((Rat.divInt 1004 10 : ℚ) - 100 < detectionIntervalSec)
    norm_num [detectionIntervalSec, Rat.divInt_eq_div]
  constructor
  · rw [runLoop_cons_pub _ _ _ h1, runLoop_cons_pub _ _ _ h2]
    simp [runLoop, publishedBatch]
  · norm_num [detectionIntervalSec, Rat.divInt_eq_div]

/-- C8: (1) for any dequeued packet whose inference raised and which passed
the rate limit, the worker publishes an empty batch carrying the source
packet's timestamp and frame shape; (2) the worker loop is compositional
over its input stream — processing continues after any packet, including
failing ones, so an inference failure never terminates the worker. -/
theorem c8_failure_isolation :
    (∀ (last : ℚ) (p : PacketObs), p.outcome = .error () →
        ¬ p.now - last < detectionIntervalSec →
        loopStep last p = (p.now, some ⟨p.ts, p.shape, []⟩)) ∧
    (∀ (last : ℚ) (ps qs : List PacketObs),
        runLoop last (ps ++ qs) =
          ((runLoop (runLoop last ps).1 qs).1,
            (runLoop last ps).2 ++ (runLoop (runLoop last ps).1 qs).2)) := by
  constructor
  · intro last p hout hrate
    simp [loopStep, hrate, publishedBatch, hout]
  · intro last ps qs
    induction ps generalizing last with
    | nil => simp [runLoop]
    | cons p ps ih =>
      by_cases h : p.now - last < detectionIntervalSec
      · rw [List.cons_append, runLoop_cons_skip _ _ _ h,
          runLoop_cons_skip _ _ _ h]
        exact ih last
      · rw [List.cons_append, runLoop_cons_pub _ _ _ h,
          runLoop_cons_pub _ _ _ h, ih p.now]
        simp

theorem c8_failure_isolation_witness :
    loopStep 0 ⟨5, (1, 1, 3), 5, .error ()⟩ = (5, some ⟨5, (1, 1, 3), []⟩) :=
  c8_failure_isolation.1 0 ⟨5, (1, 1, 3), 5, .error ()⟩ rfl
    (by simp only [sub_zero, detectionIntervalSec, not_lt]; decide)

/-! ### Smoothing lemmas and claims C7, C10 -/

theorem foldr_count_le (l : List Nat) (scan : List Nat) :
    ∀ k ∈ scan, l.count k ≤ scan.foldr (fun k2 m => max (l.count k2) m) 0 := by
  induction scan with
  | nil => intro k hk; simp at hk
  | cons a as ih =>
    intro k hk
    simp only [List.foldr_cons]
    rcases List.mem_cons.mp hk with h | h
    · subst h
      exact le_max_left _ _
    · exact le_trans (ih k h) (le_max_right _ _)

theorem count_le_countMax (l : List Nat) (k : Nat) (hk : k ∈ l) :
    l.count k ≤ countMax l :=
  foldr_count_le l l k hk

theorem foldr_count_attained (l : List Nat) (scan : List Nat)
    (h : scan ≠ []) :
    ∃ k ∈ scan, scan.foldr (fun k2 m => max (l.count k2) m) 0 = l.count k := by
  induction scan with
  | nil => exact absurd rfl h
  | cons a as ih =>
    cases as with
    | nil =>
      refine ⟨a, by simp, ?_⟩
      simp
    | cons b bs =>
      obtain ⟨k, hk, hkeq⟩ := ih (by simp)
      by_cases hc : l.count a ≤ l.count k
      · refine ⟨k, List.mem_cons_of_mem a hk, ?_⟩
        simp only [List.foldr_cons] at hkeq ⊢
        rw [hkeq, max_eq_right hc]
      · refine ⟨a, List.mem_cons_self a (b :: bs), ?_⟩
        simp only [List.foldr_cons] at hkeq ⊢
        rw [hkeq, max_eq_left (le_of_not_le hc)]

theorem countMax_attained (l : List Nat) (h : l ≠ []) :
    ∃ k ∈ l, l.count k = countMax l := by
  obtain ⟨k, hk, hkeq⟩ := foldr_count_attained l l h
  exact ⟨k, hk, hkeq.symm⟩

theorem mostCommon_isSome (l : List Nat) (h : l ≠ []) :
    (mostCommon l).isSome := by
  obtain ⟨k, hk, hkeq⟩ := countMax_attained l h
  unfold mostCommon
  rw [List.find?_isSome]
  exact ⟨k, hk, by simp [hkeq]⟩

theorem mostCommon_spec (l : List Nat) (s : Nat) (h : mostCommon l = some s) :
    s ∈ l ∧ l.count s = countMax l := by
  refine ⟨List.mem_of_find?_eq_some h, ?_⟩
  have := List.find?_some h
  simpa using this

theorem find?_split {α : Type} (p : α → Bool) :
    ∀ (l : List α) (a : α), l.find? p = some a →
      ∃ l1 l2, l = l1 ++ a :: l2 ∧ (∀ x ∈ l1, p x = false) ∧ p a = true := by
  intro l
  induction l with
  | nil => intro a h; simp at h
  | cons b bs ih =>
    intro a h
    by_cases hb : p b
    · rw [List.find?_cons_of_pos _ hb] at h
      have hba : b = a := Option.some.inj h
      subst hba
      exact ⟨[], bs, rfl, by simp, hb⟩
    · rw [List.find?_cons_of_neg _ hb] at h
      obtain ⟨l1, l2, heq, hall, hpa⟩ := ih a h
      refine ⟨b :: l1, l2, by rw [heq]; rfl, ?_, hpa⟩
      intro x hx
      rcases List.mem_cons.mp hx with hxb | hxl
      · subst hxb
        exact Bool.eq_false_iff.mpr hb
      · exact hall x hxl

theorem smoothedUpdate_some (old : Option DetectionResult)
    (buffer : List (Option DetectionResult)) (d : DetectionResult)
    (h : smoothedUpdate old buffer = some d) :
    mostCommon ((buffer.filterMap id).map DetectionResult.speciesKey) =
      some d.speciesKey ∧
    (buffer.filterMap id).reverse.find?
      (fun e => e.speciesKey == d.speciesKey) = some d := by
  unfold smoothedUpdate at h
  by_cases hemp : (buffer.filterMap id).isEmpty
  · simp [hemp] at h
  · simp only [hemp, Bool.false_eq_true, if_false] at h
    have hne : buffer.filterMap id ≠ [] := by
      intro hc
      rw [hc] at hemp
      simp at hemp
    have hmapne : (buffer.filterMap id).map DetectionResult.speciesKey ≠ [] := by
      simp [hne]
    have hsome := mostCommon_isSome _ hmapne
    obtain ⟨sp, hsp⟩ := Option.isSome_iff_exists.mp hsome
    rw [hsp] at h
    dsimp only at h
    have hspmem : sp ∈ (buffer.filterMap id).map DetectionResult.speciesKey :=
      (mostCommon_spec _ _ hsp).1
    obtain ⟨e, hemem, hekey⟩ := List.mem_map.mp hspmem
    have hfsome : ((buffer.filterMap id).reverse.find?
        (fun x => x.speciesKey == sp)).isSome := by
      rw [List.find?_isSome]
      exact ⟨e, List.mem_reverse.mpr hemem, by simp [hekey]⟩
    obtain ⟨d0, hd0⟩ := Option.isSome_iff_exists.mp hfsome
    rw [hd0] at h
    dsimp only at h
    have hdd : d0 = d := Option.some.inj h
    subst hdd
    have hpd0 := List.find?_some hd0
    have hkey : d0.speciesKey = sp := by simpa using hpd0
    constructor
    · rw [hkey]
      exact hsp
    · rw [hkey]
      exact hd0

theorem smoothedUpdate_indep (buffer : List (Option DetectionResult))
    (old1 old2 : Option DetectionResult) :
    smoothedUpdate old1 buffer = smoothedUpdate old2 buffer := by
  unfold smoothedUpdate
  by_cases hemp : (buffer.filterMap id).isEmpty
  · simp [hemp]
  · simp only [hemp, Bool.false_eq_true, if_false]
    have hne : buffer.filterMap id ≠ [] := by
      intro hc
      rw [hc] at hemp
      simp at hemp
    have hmapne : (buffer.filterMap id).map DetectionResult.speciesKey ≠ [] := by
      simp [hne]
    obtain ⟨sp, hsp⟩ := Option.isSome_iff_exists.mp (mostCommon_isSome _ hmapne)
    rw [hsp]
    dsimp only
    have hspmem := (mostCommon_spec _ _ hsp).1
    obtain ⟨e, hemem, hekey⟩ := List.mem_map.mp hspmem
    have hfsome : ((buffer.filterMap id).reverse.find?
        (fun x => x.speciesKey == sp)).isSome := by
      rw [List.find?_isSome]
      exact ⟨e, List.mem_reverse.mpr hemem, by simp [hekey]⟩
    obtain ⟨d0, hd0⟩ := Option.isSome_iff_exists.mp hfsome
    rw [hd0]

theorem firstOccur_append_of_not_mem (k : Nat) (l1 : List Nat) (hk : k ∉ l1)
    (rest : List Nat) :
    firstOccur k (l1 ++ rest) = l1.length + firstOccur k rest := by
  induction l1 with
  | nil => simp
  | cons a as ih =>
    have hak : a ≠ k := by
      intro hc
      exact hk (by rw [hc]; exact List.mem_cons_self _ _)
    have hkas : k ∉ as := fun hc => hk (List.mem_cons_of_mem _ hc)
    simp only [List.cons_append, firstOccur, hak, if_false, List.append_eq,
      ih hkas, List.length_cons]
    omega

/-- C7: the smoothing step computes the majority vote: with no valid (non--
`None`) entries the smoothed detection is `None`; when it returns a
detection, that detection is in the window, its species has maximal count
among the window's entries, and it is the most recent entry of its species
(everything after it in the window has a different species); on the spec's
two scenario windows `[A, A, B, A, None]` and `[A, B, B, A, B]` it returns
the most recent `A` and the most recent `B` respectively. -/
theorem c7_smoothing_majority_vote :
    (∀ (old : Option DetectionResult) (buffer : List (Option DetectionResult)),
        buffer.filterMap id = [] → smoothedUpdate old buffer = none) ∧
    (∀ (old : Option DetectionResult) (buffer : List (Option DetectionResult))
        (d : DetectionResult), smoothedUpdate old buffer = some d →
        d ∈ buffer.filterMap id ∧
        (∀ e ∈ buffer.filterMap id,
          ((buffer.filterMap id).map DetectionResult.speciesKey).count
              e.speciesKey ≤
            ((buffer.filterMap id).map DetectionResult.speciesKey).count
              d.speciesKey) ∧
        (∃ pre post, buffer.filterMap id = pre ++ d :: post ∧
          ∀ e ∈ post, e.speciesKey ≠ d.speciesKey)) ∧
    smoothedUpdate none windowAABA = some (mkDet 0 13 1) ∧
    smoothedUpdate none windowABBAB = some (mkDet 1 14 1) := by
  refine ⟨?_, ?_, by decide, by decide⟩
  · intro old buffer h
    unfold smoothedUpdate
    simp [h]
  · intro old buffer d h
    obtain ⟨hmc, hfind⟩ := smoothedUpdate_some old buffer d h
    have hdmem : d ∈ buffer.filterMap id :=
      List.mem_reverse.mp (List.mem_of_find?_eq_some hfind)
    have hcnt := (mostCommon_spec _ _ hmc).2
    refine ⟨hdmem, ?_, ?_⟩
    · intro e he
      rw [hcnt]
      exact count_le_countMax _ _
        (List.mem_map.mpr ⟨e, he, rfl⟩)
    · obtain ⟨l1, l2, hsplit, hall, hpd⟩ := find?_split _ _ _ hfind
      refine ⟨l2.reverse, l1.reverse, ?_, ?_⟩
      · have hr : (buffer.filterMap id).reverse.reverse =
            (l1 ++ d :: l2).reverse := by rw [hsplit]
        rw [List.reverse_reverse] at hr
        rw [hr]
        simp
      · intro e he
        have hel1 : e ∈ l1 := List.mem_reverse.mp he
        have := hall e hel1
        intro hc
        rw [hc] at this
        simp at this

theorem c7_smoothing_majority_vote_witness :
    mkDet 0 13 1 ∈ windowAABA.filterMap id ∧
    (∀ e ∈ windowAABA.filterMap id,
      ((windowAABA.filterMap id).map DetectionResult.speciesKey).count
          e.speciesKey ≤
        ((windowAABA.filterMap id).map DetectionResult.speciesKey).count
          (mkDet 0 13 1).speciesKey) ∧
    (∃ pre post, windowAABA.filterMap id = pre ++ mkDet 0 13 1 :: post ∧
      ∀ e ∈ post, e.speciesKey ≠ (mkDet 0 13 1).speciesKey) :=
  c7_smoothing_majority_vote.2.1 none windowAABA (mkDet 0 13 1) (by decide)

/-- C10: when the smoothing step returns a detection, its species is the one
whose first occurrence comes earliest when scanning the window oldest to
newest among all species tied for the maximal count (the `Counter`
insertion-order tie-break), and the result does not depend on the previous
smoothed detection — the same window contents always yield the same smoothed
detection. -/
theorem c10_tiebreak_first_occurrence :
    ∀ (old : Option DetectionResult) (buffer : List (Option DetectionResult))
      (d : DetectionResult), smoothedUpdate old buffer = some d →
      (∀ k, ((buffer.filterMap id).map DetectionResult.speciesKey).count k =
          countMax ((buffer.filterMap id).map DetectionResult.speciesKey) →
        firstOccur d.speciesKey
            ((buffer.filterMap id).map DetectionResult.speciesKey) ≤
          firstOccur k
            ((buffer.filterMap id).map DetectionResult.speciesKey)) ∧
      (∀ old2 : Option DetectionResult,
        smoothedUpdate old2 buffer = some d) := by
  intro old buffer d h
  obtain ⟨hmc, _⟩ := smoothedUpdate_some old buffer d h
  constructor
  · intro k hk
    obtain ⟨l1, l2, hsplit, hall, hpd⟩ := find?_split _ _ _ hmc
    have hdk : d.speciesKey ∉ l1 := by
      intro hc
      have := hall _ hc
      rw [this] at hpd
      cases hpd
    have hkmax : ((buffer.filterMap id).map DetectionResult.speciesKey).count
        d.speciesKey = countMax _ := (mostCommon_spec _ _ hmc).2
    have hkmem : k ∈ (buffer.filterMap id).map DetectionResult.speciesKey := by
      rw [← List.count_pos_iff, hk]
      have hdm : d.speciesKey ∈
          (buffer.filterMap id).map DetectionResult.speciesKey :=
        (mostCommon_spec _ _ hmc).1
      have : 0 < ((buffer.filterMap id).map DetectionResult.speciesKey).count
          d.speciesKey := List.count_pos_iff.mpr hdm
      omega
    have hkl1 : k ∉ l1 := by
      intro hc
      have hfalse := hall _ hc
      simp only [beq_iff_eq] at hfalse
      rw [hk] at hfalse
      simp at hfalse
    rw [hsplit, firstOccur_append_of_not_mem _ _ hdk,
      firstOccur_append_of_not_mem _ _ hkl1]
    have hzero : firstOccur d.speciesKey (d.speciesKey :: l2) = 0 := by
      simp [firstOccur]
    omega
  · intro old2
    rw [smoothedUpdate_indep buffer old2 old]
    exact h

theorem c10_tiebreak_first_occurrence_witness :
    firstOccur (mkDet 0 12 1).speciesKey
        ((windowABAB.filterMap id).map DetectionResult.speciesKey) ≤
      firstOccur 1
        ((windowABAB.filterMap id).map DetectionResult.speciesKey) ∧
    smoothedUpdate (some (mkDet 5 5 1)) windowABAB = some (mkDet 0 12 1) :=
  ⟨(c10_tiebreak_first_occurrence none windowABAB (mkDet 0 12 1)
      (by decide)).1 1 (by decide),
   (c10_tiebreak_first_occurrence none windowABAB (mkDet 0 12 1)
      (by decide)).2 (some (mkDet 5 5 1))⟩

/-! ### Sort-order lemmas and claims C9, C5 -/

theorem mem_insertByScoreDesc (d x : DetectionResult)
    (l : List DetectionResult) :
    x ∈ insertByScoreDesc d l ↔ x = d ∨ x ∈ l := by
  induction l with
  | nil => simp [insertByScoreDesc]
  | cons e rest ih =>
    unfold insertByScoreDesc
    by_cases h : e.primaryLabel.score ≤ d.primaryLabel.score
    · rw [if_pos h]
      simp only [List.mem_cons]
    · rw [if_neg h]
      simp only [List.mem_cons, ih]
      tauto

theorem pairwise_insertByScoreDesc (d : DetectionResult)
    (l : List DetectionResult)
    (h : l.Pairwise (fun a b => b.primaryLabel.score ≤ a.primaryLabel.score)) :
    (insertByScoreDesc d l).Pairwise
      (fun a b => b.primaryLabel.score ≤ a.primaryLabel.score) := by
  induction l with
  | nil => simp [insertByScoreDesc]
  | cons e rest ih =>
    rw [List.pairwise_cons] at h
    unfold insertByScoreDesc
    by_cases hc : e.primaryLabel.score ≤ d.primaryLabel.score
    · rw [if_pos hc, List.pairwise_cons]
      constructor
      · intro b hb
        rcases List.mem_cons.mp hb with hbe | hbr
        · subst hbe; exact hc
        · exact le_trans (h.1 b hbr) hc
      · rw [List.pairwise_cons]
        exact h
    · rw [if_neg hc, List.pairwise_cons]
      refine ⟨?_, ih h.2⟩
      intro b hb
      rcases (mem_insertByScoreDesc d b rest).mp hb with hbd | hbr
      · subst hbd
        exact le_of_lt (lt_of_not_le hc)
      · exact h.1 b hbr

theorem sortByScoreDesc_pairwise (l : List DetectionResult) :
    (sortByScoreDesc l).Pairwise
      (fun a b => b.primaryLabel.score ≤ a.primaryLabel.score) := by
  induction l with
  | nil => simp [sortByScoreDesc]
  | cons d rest ih =>
    have : sortByScoreDesc (d :: rest) =
        insertByScoreDesc d (sortByScoreDesc rest) := rfl
    rw [this]
    exact pairwise_insertByScoreDesc d _ ih

/-- C9: every successful result of `infer` (hence every non-empty
`DetectionBatch.detections`) is sorted by the primary classification score
descending: for every index `i`,
`detections[i+1].primary_label.score <= detections[i].primary_label.score`.
The comparison key is the classifier's top-1 score, not the detector
confidence. -/
theorem c9_sort_invariant (W H : Nat) (ts : ℚ)
    (detOut : Except Unit (List RawBox))
    (classify : Int × Int × Int × Int → Except Unit ClassificationResult)
    (l : List DetectionResult) (h : infer W H ts detOut classify = .ok l) :
    ∀ i (hi : i + 1 < l.length),
      l[i + 1].primaryLabel.score ≤ l[i].primaryLabel.score := by
  have hp : l.Pairwise
      (fun a b => b.primaryLabel.score ≤ a.primaryLabel.score) := by
    unfold infer at h
    cases detOut with
    | error e =>
      dsimp only at h
      have : ([] : List DetectionResult) = l := Except.ok.inj h
      rw [← this]
      exact List.Pairwise.nil
    | ok raws =>
      dsimp only at h
      cases hpr : processRaw W H classify ts raws with
      | error e => rw [hpr] at h; cases h
      | ok ds =>
        rw [hpr] at h
        have : sortByScoreDesc ds = l := Except.ok.inj h
        rw [← this]
        exact sortByScoreDesc_pairwise ds
  intro i hi
  have hij := List.pairwise_iff_get.mp hp ⟨i, by omega⟩ ⟨i + 1, by omega⟩
    (by simp)
  simpa using hij

theorem c9_sort_invariant_witness :
    sampleDetList[1].primaryLabel.score ≤ sampleDetList[0].primaryLabel.score :=
  c9_sort_invariant 10 10 0 (.ok [sampleRawA, sampleRawB])
    (fun _ => .ok sampleClassification) sampleDetList (by decide) 0 (by decide)

/-- C5 counterexample to the claim as stated: a frame whose detector output
contains one accepted animal box, on which the classifier raises. The
`try`/`except` in `infer` covers only the `predict` call, so the exception
escapes `infer` (it is the pipeline worker that later absorbs it). -/
theorem c5_counterexample :
    infer 100 100 0 (.ok [⟨0, 0, 10, 10, 1, 14⟩]) (fun _ => .error ()) =
      .error () := by decide

/-- C5 (amended): an exception in the detector call is caught and yields the
empty detection list, and whenever every classifier call returns normally
`infer` returns a (possibly empty) list; but an exception raised inside the
classifier call propagates out of `infer` (see the counterexample), to be
absorbed by the pipeline worker. -/
theorem c5_infer_error_handling :
    (∀ (W H : Nat) (ts : ℚ)
        (classify : Int × Int × Int × Int → Except Unit ClassificationResult),
        infer W H ts (.error ()) classify = .ok []) ∧
    (∀ (W H : Nat) (ts : ℚ) (raws : List RawBox)
        (classify : Int × Int × Int × Int → Except Unit ClassificationResult),
        (∀ b, ∃ c, classify b = .ok c) →
        ∃ l, infer W H ts (.ok raws) classify = .ok l) := by
  constructor
  · intro W H ts classify
    rfl
  · intro W H ts raws classify hcl
    suffices h : ∃ ds, processRaw W H classify ts raws = .ok ds by
      obtain ⟨ds, hds⟩ := h
      refine ⟨sortByScoreDesc ds, ?_⟩
      unfold infer
      dsimp only
      rw [hds]
    induction raws with
    | nil => exact ⟨[], rfl⟩
    | cons r rest ih =>
      obtain ⟨ds, hds⟩ := ih
      simp only [processRaw]
      split
      · exact ⟨ds, hds⟩
      · split
        · exact ⟨ds, hds⟩
        · split
          · exact ⟨ds, hds⟩
          · obtain ⟨c, hc⟩ := hcl (max 0 r.x1, max 0 r.y1,
              min ((W : Int) - 1) r.x2, min ((H : Int) - 1) r.y2)
            rw [hc, hds]
            exact ⟨_, rfl⟩

theorem c5_infer_error_handling_witness :
    (infer 1 1 0 (.error ()) (fun _ => .ok sampleClassification) = .ok []) ∧
    ∃ l, infer 10 10 0 (.ok [sampleRawA, sampleRawB])
      (fun _ => .ok sampleClassification) = .ok l :=
  ⟨c5_infer_error_handling.1 1 1 0 (fun _ => .ok sampleClassification),
   c5_infer_error_handling.2 10 10 0 [sampleRawA, sampleRawB]
     (fun _ => .ok sampleClassification)
     (fun _ => ⟨sampleClassification, rfl⟩)⟩

/-! ### Camera start semantics, claim C4 -/

/-- C4 counterexample to the claim as stated: with a device that cannot be
opened, `start()` on a stopped controller returns normally — no
`IOError`-class exception reaches its caller; the failure is only detected
on the spawned capture thread, which stores the (closed) handle and clears
the running flag. -/
theorem c4_counterexample :
    startAndOpen false ⟨false, false⟩ = .ok ⟨false, true⟩ ∧
    ∀ e : Unit, startAndOpen false ⟨false, false⟩ ≠ .error e := by
  constructor
  · rfl
  · intro e hc
    cases hc

/-- C4 (amended): when the video device cannot be opened, no exception is
surfaced to the caller of `start()` — `start()` returns normally and the
open failure is detected asynchronously in the capture thread, which clears
the running flag (so a later `start()` retries normally, taking the spawn
branch rather than the already-running no-op); the device handle remains
stored in `_capture`. -/
theorem c4_camera_start_failure (s : CameraState) (h : s.running = false) :
    startAndOpen false s = .ok ⟨false, true⟩ ∧
    (∀ e : Unit, startAndOpen false s ≠ .error e) ∧
    cameraStart ⟨false, true⟩ = .ok (⟨true, true⟩, .spawned) := by
  obtain ⟨r, cH⟩ := s
  dsimp only at h
  subst h
  refine ⟨?_, ?_, rfl⟩
  · cases cH <;> rfl
  · intro e hc
    cases cH <;> cases hc

theorem c4_camera_start_failure_witness :
    startAndOpen false ⟨false, false⟩ = .ok ⟨false, true⟩ ∧
    (∀ e : Unit, startAndOpen false ⟨false, false⟩ ≠ .error e) ∧
    cameraStart ⟨false, true⟩ = .ok (⟨true, true⟩, .spawned) :=
  c4_camera_start_failure ⟨false, false⟩ rfl

/-! ### Stabilizer state lemmas for claims C1, C2 -/

theorem dwellStep_preserves (now : ℚ) (s : AppState) :
    ((dwellStep now s).1).current = s.current ∧
    ((dwellStep now s).1).frozen = s.frozen ∧
    ((dwellStep now s).1).frozenContext = s.frozenContext ∧
    ((dwellStep now s).1).wiki = s.wiki ∧
    ((dwellStep now s).1).buffer = s.buffer ∧
    ((dwellStep now s).1).labelUuid = s.labelUuid := by
  obtain ⟨buf, cur, fro, fc, ls, st, tr, wk, lu⟩ := s
  unfold dwellStep
  cases cur <;> cases fro <;> dsimp only <;> (repeat' split) <;> simp

theorem drainOne_preserves (s : AppState) (top : Option DetectionResult) :
    (drainOne s top).frozen = s.frozen ∧
    (drainOne s top).frozenContext = s.frozenContext ∧
    (drainOne s top).lastSpecies = s.lastSpecies ∧
    (drainOne s top).startTime = s.startTime ∧
    (drainOne s top).triggered = s.triggered ∧
    (drainOne s top).wiki = s.wiki ∧
    (drainOne s top).labelUuid = s.labelUuid := by
  obtain ⟨buf, cur, fro, fc, ls, st, tr, wk, lu⟩ := s
  simp [drainOne]

theorem drainBatches_preserves (batches : List (Option DetectionResult)) :
    ∀ s : AppState,
    (drainBatches s batches).frozen = s.frozen ∧
    (drainBatches s batches).frozenContext = s.frozenContext ∧
    (drainBatches s batches).lastSpecies = s.lastSpecies ∧
    (drainBatches s batches).startTime = s.startTime ∧
    (drainBatches s batches).triggered = s.triggered ∧
    (drainBatches s batches).wiki = s.wiki ∧
    (drainBatches s batches).labelUuid = s.labelUuid := by
  induction batches with
  | nil => intro s; exact ⟨rfl, rfl, rfl, rfl, rfl, rfl, rfl⟩
  | cons b bs ih =>
    intro s
    have h1 := drainOne_preserves s b
    have h2 := ih (drainOne s b)
    have hstep : drainBatches s (b :: bs) = drainBatches (drainOne s b) bs :=
      rfl
    rw [hstep]
    exact ⟨h2.1.trans h1.1, h2.2.1.trans h1.2.1, h2.2.2.1.trans h1.2.2.1,
      h2.2.2.2.1.trans h1.2.2.2.1, h2.2.2.2.2.1.trans h1.2.2.2.2.1,
      h2.2.2.2.2.2.1.trans h1.2.2.2.2.2.1,
      h2.2.2.2.2.2.2.trans h1.2.2.2.2.2.2⟩

theorem handleDetectionUpdate_preserves (hist : SpeciesLabel → Option Nat)
    (s : AppState) :
    (handleDetectionUpdate hist s).1.frozen = s.frozen ∧
    (handleDetectionUpdate hist s).1.frozenContext = s.frozenContext ∧
    (handleDetectionUpdate hist s).1.triggered = s.triggered ∧
    (handleDetectionUpdate hist s).1.lastSpecies = s.lastSpecies ∧
    (handleDetectionUpdate hist s).1.startTime = s.startTime ∧
    (handleDetectionUpdate hist s).1.current = s.current := by
  obtain ⟨buf, cur, fro, fc, ls, st, tr, wk, lu⟩ := s
  unfold handleDetectionUpdate
  cases cur <;> dsimp only <;> (repeat' split) <;> simp

theorem handleDetectionUpdate_ctx (hist : SpeciesLabel → Option Nat)
    (s : AppState) :
    (handleDetectionUpdate hist s).2.locked = false ∧
    (handleDetectionUpdate hist s).2.detection = s.current := by
  obtain ⟨buf, cur, fro, fc, ls, st, tr, wk, lu⟩ := s
  unfold handleDetectionUpdate
  cases cur <;> dsimp only <;> (repeat' split) <;> simp

theorem pollAfterDrain_fired (hist : SpeciesLabel → Option Nat) (upd : Bool)
    (now : ℚ) (s : AppState) :
    (pollAfterDrain hist upd now s).2.1 = (dwellStep now s).2 := by
  unfold pollAfterDrain
  cases upd <;> dsimp only <;> (repeat' split) <;> rfl

theorem pollAfterDrain_flags (hist : SpeciesLabel → Option Nat) (upd : Bool)
    (now : ℚ) (s : AppState) :
    (pollAfterDrain hist upd now s).1.triggered =
      (dwellStep now s).1.triggered ∧
    (pollAfterDrain hist upd now s).1.lastSpecies =
      (dwellStep now s).1.lastSpecies ∧
    (pollAfterDrain hist upd now s).1.startTime =
      (dwellStep now s).1.startTime ∧
    ((pollAfterDrain hist upd now s).1.frozen = (dwellStep now s).1.frozen ∨
      (pollAfterDrain hist upd now s).1.frozen = true) := by
  have hp := handleDetectionUpdate_preserves hist (dwellStep now s).1
  unfold pollAfterDrain
  cases upd <;> dsimp only <;> (repeat' split) <;>
    simp_all [handleDetectionUpdate_preserves]

theorem pollAfterDrain_freeze_activates (hist : SpeciesLabel → Option Nat)
    (now : ℚ) (s : AppState) (d : DetectionResult)
    (hcur : s.current = some d) (hfro : s.frozen = false)
    (hsc : FREEZE_CONFIDENCE_THRESHOLD ≤ d.primaryLabel.score) :
    (pollAfterDrain hist true now s).1.frozen = true ∧
    (pollAfterDrain hist true now s).1.frozenContext =
      some ⟨some d, s.wiki, hist d.primaryLabel.label, true⟩ ∧
    (pollAfterDrain hist true now s).2.2 =
      some ((pollAfterDrain hist true now s).1.frozenContext) := by
  have hp := dwellStep_preserves now s
  unfold pollAfterDrain
  dsimp only
  rw [hp.1, hp.2.1, hcur, hfro]
  dsimp only
  rw [if_pos hsc]
  simp [hp.2.2.2.1]

theorem pollAfterDrain_frozen_holds (hist : SpeciesLabel → Option Nat)
    (upd : Bool) (now : ℚ) (s : AppState) (hfro : s.frozen = true) :
    (pollAfterDrain hist upd now s).1.frozen = true ∧
    (pollAfterDrain hist upd now s).1.frozenContext = s.frozenContext ∧
    (upd = true →
      (pollAfterDrain hist upd now s).2.2 = some s.frozenContext) := by
  have hp := dwellStep_preserves now s
  unfold pollAfterDrain
  cases upd with
  | false =>
    dsimp only
    exact ⟨hp.2.1.trans hfro, hp.2.2.1, fun h => absurd h (by simp)⟩
  | true =>
    dsimp only
    cases hc : (dwellStep now s).1.current <;>
      simp [hp.2.1, hfro, hp.2.2.1]

/-- C1: the freeze latch. (1) Activation: when at least one batch was
drained, the latch is inactive, and the smoothed current detection's
classification score reaches the freeze confidence threshold, the poll
activates the latch, snapshots the detection together with the cached
Wikipedia entry and capture history into the locked context, and reports
exactly that locked context. (2) Hold: while the latch is active, every
subsequent poll keeps the latch active, leaves the snapshot unchanged and —
whenever batches arrive — reports exactly the snapshot. (3) Release: the
"capture another" action clears the latch and the snapshot and immediately
emits a normal (unlocked) update for the current detection. -/
theorem c1_freeze_latch (hist : SpeciesLabel → Option Nat) :
    (∀ (batches : List (Option DetectionResult)) (now : ℚ) (s : AppState)
        (d : DetectionResult),
        s.frozen = false → batches ≠ [] →
        (drainBatches s batches).current = some d →
        FREEZE_CONFIDENCE_THRESHOLD ≤ d.primaryLabel.score →
        (pollStep hist batches now s).1.frozen = true ∧
        (pollStep hist batches now s).1.frozenContext =
          some ⟨some d, s.wiki, hist d.primaryLabel.label, true⟩ ∧
        (pollStep hist batches now s).2.2 =
          some ((pollStep hist batches now s).1.frozenContext)) ∧
    (∀ (batches : List (Option DetectionResult)) (now : ℚ) (s : AppState),
        s.frozen = true →
        (pollStep hist batches now s).1.frozen = true ∧
        (pollStep hist batches now s).1.frozenContext = s.frozenContext ∧
        (batches ≠ [] →
          (pollStep hist batches now s).2.2 = some s.frozenContext)) ∧
    (∀ s : AppState,
        (captureAnother hist s).1.frozen = false ∧
        (captureAnother hist s).1.frozenContext = none ∧
        (captureAnother hist s).2.locked = false ∧
        (captureAnother hist s).2.detection = s.current) := by
  refine ⟨?_, ?_, ?_⟩
  · intro batches now s d hfro hb hcur hsc
    have hne : (!batches.isEmpty) = true := by
      cases batches with
      | nil => exact absurd rfl hb
      | cons x xs => rfl
    have hdp := drainBatches_preserves batches s
    have hfro1 : (drainBatches s batches).frozen = false := hdp.1.trans hfro
    have h := pollAfterDrain_freeze_activates hist now (drainBatches s batches)
      d hcur hfro1 hsc
    rw [hdp.2.2.2.2.2.1] at h
    unfold pollStep
    rw [hne]
    exact h
  · intro batches now s hfro
    have hdp := drainBatches_preserves batches s
    have h := pollAfterDrain_frozen_holds hist (!batches.isEmpty) now
      (drainBatches s batches) (hdp.1.trans hfro)
    unfold pollStep
    refine ⟨h.1, h.2.1.trans hdp.2.1, ?_⟩
    intro hb
    have hne : (!batches.isEmpty) = true := by
      cases batches with
      | nil => exact absurd rfl hb
      | cons x xs => rfl
    rw [h.2.2 hne]
    exact congrArg some hdp.2.1
  · intro s
    have hpres := handleDetectionUpdate_preserves hist
      { s with frozen := false, frozenContext := none }
    have hctx := handleDetectionUpdate_ctx hist
      { s with frozen := false, frozenContext := none }
    exact ⟨hpres.1, hpres.2.1, hctx.1, hctx.2⟩

theorem c1_freeze_latch_witness :
    (pollStep (fun _ => none) [some (mkDet 0 0 (Rat.divInt 95 100))] 0
        initialAppState).1.frozen = true ∧
    (pollStep (fun _ => none) [some (mkDet 0 0 (Rat.divInt 95 100))] 0
        initialAppState).1.frozenContext =
      some ⟨some (mkDet 0 0 (Rat.divInt 95 100)), none, none, true⟩ ∧
    (pollStep (fun _ => none) [some (mkDet 0 0 (Rat.divInt 95 100))] 0
        initialAppState).2.2 =
      some ((pollStep (fun _ => none) [some (mkDet 0 0 (Rat.divInt 95 100))] 0
        initialAppState).1.frozenContext) :=
  (c1_freeze_latch (fun _ => none)).1
    [some (mkDet 0 0 (Rat.divInt 95 100))] 0 initialAppState
    (mkDet 0 0 (Rat.divInt 95 100)) rfl (by simp) (by decide) (by decide)

theorem dwellStep_frozen_no_fire (now : ℚ) (s : AppState)
    (h : s.frozen = true) : (dwellStep now s).2 = false := by
  obtain ⟨buf, cur, fro, fc, ls, st, tr, wk, lu⟩ := s
  dsimp only at h
  subst h
  unfold dwellStep
  cases cur <;> dsimp only <;> split <;> rfl

theorem dwellStep_same_triggered (now : ℚ) (s : AppState)
    (d : DetectionResult) (hfro : s.frozen = false)
    (hcur : s.current = some d) (hls : s.lastSpecies = some d.speciesKey)
    (htr : s.triggered = true) :
    (dwellStep now s).2 = false ∧ (dwellStep now s).1.triggered = true ∧
    (dwellStep now s).1.lastSpecies = s.lastSpecies ∧
    (dwellStep now s).1.frozen = false := by
  obtain ⟨buf, cur, fro, fc, ls, st, tr, wk, lu⟩ := s
  dsimp only at hfro hcur hls htr
  subst hfro
  subst hcur
  subst hls
  subst htr
  unfold dwellStep
  dsimp only
  rw [if_pos rfl]
  cases st <;> simp

theorem runPoll_no_refire (hist : SpeciesLabel → Option Nat) (k : Nat) :
    ∀ (inputs : List (List (Option DetectionResult) × ℚ)) (s : AppState),
      (s.frozen = true ∨
        (s.frozen = false ∧ s.triggered = true ∧ s.lastSpecies = some k)) →
      SameSpeciesRun hist k s inputs →
      (runPoll hist s inputs).2 = 0 := by
  intro inputs
  induction inputs with
  | nil => intro s hinv hrun; rfl
  | cons p rest ih =>
    obtain ⟨bs, now⟩ := p
    intro s hinv hrun
    obtain ⟨⟨d, hd, hdk⟩, hrest⟩ := hrun
    have hdp := drainBatches_preserves bs s
    have hfired := pollAfterDrain_fired hist (!bs.isEmpty) now
      (drainBatches s bs)
    have hflags := pollAfterDrain_flags hist (!bs.isEmpty) now
      (drainBatches s bs)
    have hstep : pollStep hist bs now s =
        pollAfterDrain hist (!bs.isEmpty) now (drainBatches s bs) := rfl
    have hmain : (pollStep hist bs now s).2.1 = false ∧
        ((pollStep hist bs now s).1.frozen = true ∨
          ((pollStep hist bs now s).1.frozen = false ∧
            (pollStep hist bs now s).1.triggered = true ∧
            (pollStep hist bs now s).1.lastSpecies = some k)) := by
      rcases hinv with hfro | ⟨hfro, htr, hls⟩
      · have hfro1 : (drainBatches s bs).frozen = true := hdp.1.trans hfro
        have hnof := dwellStep_frozen_no_fire now (drainBatches s bs) hfro1
        have hold := pollAfterDrain_frozen_holds hist (!bs.isEmpty) now
          (drainBatches s bs) hfro1
        rw [hstep]
        exact ⟨hfired.trans hnof, Or.inl hold.1⟩
      · have hfro1 : (drainBatches s bs).frozen = false := hdp.1.trans hfro
        have htr1 : (drainBatches s bs).triggered = true :=
          hdp.2.2.2.2.1.trans htr
        have hls1 : (drainBatches s bs).lastSpecies = some k :=
          hdp.2.2.1.trans hls
        have hg := dwellStep_same_triggered now (drainBatches s bs) d hfro1 hd
          (by rw [hls1, hdk]) htr1
        rw [hstep]
        refine ⟨hfired.trans hg.1, ?_⟩
        rcases hflags.2.2.2 with hfz | hfz
        · exact Or.inr ⟨hfz.trans hg.2.2.2, hflags.1.trans hg.2.1,
            hflags.2.1.trans (hg.2.2.1.trans hls1)⟩
        · exact Or.inl hfz
    have hrp : (runPoll hist s ((bs, now) :: rest)).2 =
        (if (pollStep hist bs now s).2.1 then 1 else 0) +
          (runPoll hist (pollStep hist bs now s).1 rest).2 := rfl
    rw [hrp, hmain.1, ih (pollStep hist bs now s).1 hmain.2 hrest]
    simp

/-- C2: dwell / auto-capture. (1) Firing: when the latch is inactive, the
smoothed detection's species equals the tracked key, the dwell timer is
running and has reached the threshold, and auto-capture has not yet fired
for this dwell period, the step fires exactly the capture trigger and marks
it fired. (2) A step fires only when the fired-flag was clear and the latch
inactive, and firing sets the flag. (3) While the freeze latch is active no
step fires. (4) A species change restarts dwell tracking from this poll
with the flag cleared. (5) Losing the detection clears the tracked key, and
resets the timer and flag if tracking was live. (6) No-refire: once the
flag is set for a tracked species, a run of polls whose smoothed detection
stays on that species never fires again (the flag only clears when the key
changes or becomes `None`, after which the species must return). -/
theorem c2_dwell_auto_capture (hist : SpeciesLabel → Option Nat) :
    (∀ (now t0 : ℚ) (s : AppState) (d : DetectionResult),
        s.frozen = false → s.current = some d →
        s.lastSpecies = some d.speciesKey → s.startTime = some t0 →
        s.triggered = false →
        AUTO_CAPTURE_THRESHOLD_SECONDS ≤ now - t0 →
        dwellStep now s = ({ s with triggered := true }, true)) ∧
    (∀ (now : ℚ) (s : AppState), (dwellStep now s).2 = true →
        s.triggered = false ∧ (dwellStep now s).1.triggered = true ∧
        s.frozen = false) ∧
    (∀ (now : ℚ) (s : AppState), s.frozen = true →
        (dwellStep now s).2 = false) ∧
    (∀ (now : ℚ) (s : AppState) (d : DetectionResult),
        s.frozen = false → s.current = some d →
        ¬ s.lastSpecies = some d.speciesKey →
        dwellStep now s =
          ({ s with
              lastSpecies := some d.speciesKey
              startTime := some now
              triggered := false }, false)) ∧
    (∀ (now : ℚ) (s : AppState), s.current = none →
        (dwellStep now s).2 = false ∧
        (dwellStep now s).1.lastSpecies = none ∧
        (¬ s.lastSpecies = none →
          (dwellStep now s).1.triggered = false ∧
          (dwellStep now s).1.startTime = none)) ∧
    (∀ (k : Nat) (inputs : List (List (Option DetectionResult) × ℚ))
        (s : AppState),
        (s.frozen = true ∨
          (s.frozen = false ∧ s.triggered = true ∧
            s.lastSpecies = some k)) →
        SameSpeciesRun hist k s inputs →
        (runPoll hist s inputs).2 = 0) := by
  refine ⟨?_, ?_, ?_, ?_, ?_, ?_⟩
  · intro now t0 s d hfro hcur hls hst htr hthr
    obtain ⟨buf, cur, fro, fc, ls, st, tr, wk, lu⟩ := s
    dsimp only at hfro hcur hls hst htr
    subst hfro
    subst hcur
    subst hls
    subst hst
    subst htr
    unfold dwellStep
    dsimp only
    rw [if_pos rfl, if_pos ⟨hthr, rfl⟩]
  · intro now s
    obtain ⟨buf, cur, fro, fc, ls, st, tr, wk, lu⟩ := s
    unfold dwellStep
    cases cur <;> cases fro <;> dsimp only <;> (repeat' split) <;> simp_all
  · exact fun now s h => dwellStep_frozen_no_fire now s h
  · intro now s d hfro hcur hls
    obtain ⟨buf, cur, fro, fc, ls, st, tr, wk, lu⟩ := s
    dsimp only at hfro hcur hls
    subst hfro
    subst hcur
    unfold dwellStep
    dsimp only
    rw [if_neg hls]
  · intro now s hcur
    obtain ⟨buf, cur, fro, fc, ls, st, tr, wk, lu⟩ := s
    dsimp only at hcur
    subst hcur
    unfold dwellStep
    dsimp only
    split <;> simp_all
  · exact fun k inputs s hinv hrun => runPoll_no_refire hist k inputs s hinv hrun

theorem c2_dwell_auto_capture_witness :
    dwellStep 2 ⟨[], some (mkDet 0 0 1), false, none, some 0, some 0, false,
        none, none⟩ =
      ({ (⟨[], some (mkDet 0 0 1), false, none, some 0, some 0, false, none,
          none⟩ : AppState) with triggered := true }, true) :=
  (c2_dwell_auto_capture (fun _ => none)).1 2 0
    ⟨[], some (mkDet 0 0 1), false, none, some 0, some 0, false, none, none⟩
    (mkDet 0 0 1) rfl rfl rfl rfl rfl
    (by simp [AUTO_CAPTURE_THRESHOLD_SECONDS])
